import Mathlib

/-!
Verification of the output-formatting layer of the MeCab wrapper
(`konlpy/tag/_mecab.py`).

Python strings are modelled as lists of Unicode code points (`List Char`).
All separators used by the source are single characters, so Python
`str.split(sep)`, `str.split(sep, 1)`, `str.split()` and `str.splitlines()`
are modelled by the executable functions `pySplit`, `pySplit1`, `pySplitWS`
and `pySplitlines` below, which follow CPython semantics on those inputs.
Python exceptions (IndexError from out-of-range indexing, the validation
error, type errors from tuple unpacking) are modelled with `Option` and
`Except`.
-/

namespace Konlpy

/-- A Python string: a sequence of Unicode code points. -/
abbrev PyStr := List Char

/-- Model of Python `s.split(sep)` for a one-character separator `sep`.
`"".split(sep) == [""]`, and separators at the edges produce empty pieces,
exactly as in CPython. -/
def pySplit (sep : Char) : PyStr → List PyStr
  | [] => [[]]
  | c :: rest =>
    if c = sep then [] :: pySplit sep rest
    else
      match pySplit sep rest with
      | [] => [[c]]
      | x :: xs => (c :: x) :: xs

/-- Model of Python `s.split(sep, 1)` for a one-character separator: split at
the first occurrence only, so the result has one or two pieces. -/
def pySplit1 (sep : Char) : PyStr → List PyStr
  | [] => [[]]
  | c :: rest =>
    if c = sep then [[], rest]
    else
      match pySplit1 sep rest with
      | [] => [[c]]
      | x :: xs => (c :: x) :: xs

/-- The line-boundary characters recognised by Python `str.splitlines`. -/
def isLineBreak (c : Char) : Bool :=
  c = '\n' || c = '\r' || c = '\x0b' || c = '\x0c' ||
  c = '\x1c' || c = '\x1d' || c = '\x1e' || c = '\x85' ||
  c = ' ' || c = ' '

/-- Worker for `pySplitlines`; `acc` holds the current line reversed. -/
def pySplitlinesAux : PyStr → PyStr → List PyStr
  | [], acc => if acc = [] then [] else [acc.reverse]
  | '\r' :: '\n' :: rest, acc => acc.reverse :: pySplitlinesAux rest []
  | c :: rest, acc =>
    if isLineBreak c then acc.reverse :: pySplitlinesAux rest []
    else pySplitlinesAux rest (c :: acc)

/-- Model of Python `s.splitlines()`: split at line boundaries (with `\r\n`
counting as a single boundary), with no trailing empty line. -/
def pySplitlines (s : PyStr) : List PyStr :=
  pySplitlinesAux s []

/-- Worker for `pySplitWS`; `acc` holds the current word reversed. -/
def pySplitWSAux : PyStr → PyStr → List PyStr
  | [], acc => if acc = [] then [] else [acc.reverse]
  | c :: rest, acc =>
    if c.isWhitespace || c = '\x0b' || c = '\x0c' then
      if acc = [] then pySplitWSAux rest []
      else acc.reverse :: pySplitWSAux rest []
    else pySplitWSAux rest (c :: acc)

/-- Model of Python `s.split()` (no arguments): split on runs of whitespace,
discarding empty pieces. -/
def pySplitWS (s : PyStr) : List PyStr :=
  pySplitWSAux s []

/-- One element of the formatted output: either a `(surface, tag)` pair, or —
when `join=True` — the joined string `surface + "/" + tag`. -/
inductive MToken where
  | pair (surface tag : PyStr)
  | joined (text : PyStr)
deriving DecidableEq, Repr

/-- The surface component of a token (for `joined` tokens, the whole text). -/
def MToken.surface : MToken → PyStr
  | .pair s _ => s
  | .joined s => s

/-- The tag component of a token (junk value for `joined` tokens). -/
def MToken.tag : MToken → PyStr
  | .pair _ t => t
  | .joined _ => []

/-- Whether a token is a `(surface, tag)` pair. -/
def MToken.isPair : MToken → Bool
  | .pair _ _ => true
  | .joined _ => false

/-- Python tuple unpacking `s, t = token`: succeeds exactly on pairs. -/
def MToken.asPair : MToken → Option (PyStr × PyStr)
  | .pair s t => some (s, t)
  | .joined _ => none

/-- A Python loop that applies `f` to each element in order and collects the
results, failing (raising) as soon as one application fails. -/
def collectSome {α β : Type} (f : α → Option β) : List α → Option (List β)
  | [] => some []
  | a :: l =>
    match f a with
    | none => none
    | some b =>
      match collectSome f l with
      | none => none
      | some bs => some (b :: bs)

/-- The tail of `split` in `_mecab.py`: `tag = features[0]` followed by the
`join` choice. Indexing is modelled with `List.get?` (an out-of-range index
is a Python IndexError, i.e. `none`); `features` is never empty, so this
never actually fails. -/
def tagResult (s : PyStr) (features : List PyStr) (join : Bool) : Option (List MToken) :=
  match features[0]? with
  | none => none
  | some tag => some [if join then MToken.joined (s ++ '/' :: tag) else MToken.pair s tag]

/-- The `Inflect` branch of `split` in `_mecab.py`:
`tokens = original.split('+')`, `tokens = [token.split('/') for token in tokens]`,
then one result per token built from `token[0]` and `token[1]`.
`token[1]` raises IndexError when a `+`-token has no `/`. -/
def inflectExpand (original : PyStr) (join : Bool) : Option (List MToken) :=
  collectSome
    (fun token =>
      match token[0]?, token[1]? with
      | some t0, some t1 =>
        some (if join then MToken.joined (t0 ++ '/' :: t1) else MToken.pair t0 t1)
      | _, _ => none)
    ((pySplit '+' original).map (pySplit '/'))

/-- Body of `split` once the line has been cut at the first tab into the
surface `s` and the feature string `t`. Mirrors the short-circuit
`split_inflect and features[4] == 'Inflect'`: `features[4]` is only read when
`split_inflect` is true. -/
def splitBody (s t : PyStr) (join split_inflect : Bool) : Option (List MToken) :=
  let features := pySplit ',' t
  if split_inflect then
    match features[4]? with
    | none => none
    | some f4 =>
      if f4 = "Inflect".toList then
        match features[7]? with
        | none => none
        | some original => inflectExpand original join
      else tagResult s features join
  else tagResult s features join

/-- The inner function `split` of `parse` in `_mecab.py`: an empty line, or a
line with no tab, becomes the placeholder `("", "SY")`; otherwise the line is
cut at the first tab and handled by `splitBody`. -/
def split (elem : PyStr) (join split_inflect : Bool) : Option (List MToken) :=
  if elem = [] then some [MToken.pair [] "SY".toList]
  else
    match pySplit1 '\t' elem with
    | [s, t] => splitBody s t join split_inflect
    | _ => some [MToken.pair [] "SY".toList]

/-- Function `parse` in `_mecab.py`: drop the last line of the tagger dump (the EOS
line), then either concatenate the per-line expansions (`split_inflect=True`)
or take `split(elem)[0]` for each line. -/
def parse (result : PyStr) (join split_inflect : Bool) : Option (List MToken) :=
  let lines := (pySplitlines result).dropLast
  if split_inflect then
    Option.map List.flatten (collectSome (fun elem => split elem join true) lines)
  else
    collectSome (fun elem => Option.bind (split elem join false) List.head?) lines

/-- An argument passed to the tagging entry points: either a Python string,
or a value of some other runtime type. -/
inductive PhraseInput where
  | text (s : PyStr)
  | nonText

/-- The errors the tagging entry points can raise: the input-validation
error, a Python IndexError from out-of-range indexing inside `parse`, and a
Python TypeError from tuple unpacking. -/
inductive PosError where
  | validationError
  | indexError
  | typeError
deriving DecidableEq, Repr

/-- The shape of the value returned by `pos`: one flat token sequence when
`flatten=True`, one token sequence per whitespace-delimited segment when
`flatten=False`. -/
inductive PosResult where
  | flat (tokens : List MToken)
  | grouped (groups : List (List MToken))
deriving DecidableEq, Repr

/-- The wrapper object. The external MeCab tagger is opaque: it is modelled
as an arbitrary function from input text to the textual dictionary dump that
`parse` consumes. -/
structure Mecab where
  tagger : PyStr → PyStr

/-- Modelled from the spec: the function `validate_phrase_inputs` imported
from `konlpy.tag._common` is not part of the sources under verification; per
the spec it rejects non-text input (wrong type) with a validation error
before any processing, and admits every string. -/
def validate_phrase_inputs : PhraseInput → Except PosError PyStr
  | .text s => .ok s
  | .nonText => .error .validationError

/-- Method `Mecab.pos`: validate the input, then either tag the whole phrase
and format it (`flatten=True`), or tag and format each whitespace-delimited
segment separately (`flatten=False`). Only the Python-3 branch of the source
is modelled; the Python-2 branch differs solely in byte-encoding the text for
the external tagger. -/
def Mecab.pos (m : Mecab) (phrase : PhraseInput) (flatten join split_inflect : Bool) :
    Except PosError PosResult :=
  match validate_phrase_inputs phrase with
  | .error e => .error e
  | .ok p =>
    if flatten then
      match parse (m.tagger p) join split_inflect with
      | none => .error .indexError
      | some toks => .ok (.flat toks)
    else
      match collectSome (fun eojeol => parse (m.tagger eojeol) join split_inflect)
          (pySplitWS p) with
      | none => .error .indexError
      | some gs => .ok (.grouped gs)

/-- Method `Mecab.morphs`: `[s for s, t in self.pos(phrase)]` with the
default options of `pos`. Tuple unpacking of a non-pair raises a TypeError,
modelled via `MToken.asPair`. -/
def Mecab.morphs (m : Mecab) (phrase : PhraseInput) : Except PosError (List PyStr) :=
  match m.pos phrase true false false with
  | .error e => .error e
  | .ok (.flat toks) =>
    match collectSome MToken.asPair toks with
    | none => .error .typeError
    | some prs => .ok (prs.map Prod.fst)
  | .ok (.grouped _) => .error .typeError

/-- Method `Mecab.nouns`: `[s for s, t in tagged if t.startswith('N')]` where
`tagged = self.pos(phrase)` with default options. -/
def Mecab.nouns (m : Mecab) (phrase : PhraseInput) : Except PosError (List PyStr) :=
  match m.pos phrase true false false with
  | .error e => .error e
  | .ok (.flat toks) =>
    match collectSome MToken.asPair toks with
    | none => .error .typeError
    | some prs =>
      .ok ((prs.filter (fun p => List.isPrefixOf "N".toList p.2)).map Prod.fst)
  | .ok (.grouped _) => .error .typeError

/-- The environment of `Mecab.__init__`: the default dictionary directory
`mecab_ko_dic.DICDIR`, and whether constructing the external `Tagger`
succeeds — `taggerLoads (some p)` for `Tagger('-d p')`, `taggerLoads none`
for the default `Tagger()`. A failing construction raises `RuntimeError`,
which `__init__` catches. -/
structure TaggerEnv where
  dicdir : PyStr
  taggerLoads : Option PyStr → Bool

/-- Outcome of `Mecab.__init__`: the stored `self.dicpath` on success, or the
message of the raised exception on dictionary-load failure. -/
inductive InitResult where
  | ok (dicpath : PyStr)
  | dictError (msg : PyStr)
deriving DecidableEq, Repr

/-- Python string interpolation `'%s' % dicpath` where `dicpath` is either a
string or `None`. -/
def pyStrOfOpt : Option PyStr → PyStr
  | none => "None".toList
  | some s => s

/-- The message of the exception raised by `Mecab.__init__` on a
`RuntimeError`, with `%s` already interpolated. -/
def dictErrorMsg (dicpathStr : PyStr) : PyStr :=
  "The MeCab dictionary does not exist at \"".toList ++ dicpathStr ++
    "\". Is the dictionary correctly installed?\nYou can also try entering the dictionary path when initializing the Mecab class: \"Mecab('/some/dic/path')\"".toList

/-- Method `Mecab.__init__`: a truthy `dicpath` argument selects
`Tagger('-d %s' % dicpath)` and stores that path; otherwise the default
dictionary is used and `self.dicpath` is set to `mecab_ko_dic.DICDIR`. A
`RuntimeError` from `Tagger` construction is replaced by an exception whose
message interpolates the `dicpath` ARGUMENT (which is `None` when it was
omitted). -/
def mecabInit (env : TaggerEnv) (dicpath : Option PyStr) : InitResult :=
  if (match dicpath with | some s => decide (s ≠ []) | none => false) then
    if env.taggerLoads dicpath then InitResult.ok (dicpath.getD [])
    else InitResult.dictError (dictErrorMsg (pyStrOfOpt dicpath))
  else
    if env.taggerLoads none then InitResult.ok env.dicdir
    else InitResult.dictError (dictErrorMsg (pyStrOfOpt dicpath))

/-! ### Basic lemmas about the Python string primitives -/

theorem pySplit_ne_nil (sep : Char) (s : PyStr) : pySplit sep s ≠ [] := by
  induction s with
  | nil => simp [pySplit]
  | cons c rest ih =>
    simp only [pySplit]
    by_cases h : c = sep
    · simp [h]
    · simp only [if_neg h]
      rcases hr : pySplit sep rest with _ | ⟨x, xs⟩
      · simp
      · simp

theorem two_le_pySplit_length_iff (sep : Char) (s : PyStr) :
    2 ≤ (pySplit sep s).length ↔ sep ∈ s := by
  induction s with
  | nil => simp [pySplit]
  | cons c rest ih =>
    simp only [pySplit]
    by_cases h : c = sep
    · subst h
      rw [if_pos rfl]
      have hpos : 1 ≤ (pySplit c rest).length :=
        List.length_pos.mpr (pySplit_ne_nil c rest)
      simp only [List.length_cons, List.mem_cons]
      constructor
      · intro _; exact Or.inl trivial
      · intro _; omega
    · simp only [if_neg h]
      rcases hr : pySplit sep rest with _ | ⟨x, xs⟩
      · exact absurd hr (pySplit_ne_nil sep rest)
      · rw [hr] at ih
        simp only [List.length_cons] at ih ⊢
        rw [ih, List.mem_cons]
        constructor
        · intro hm; exact Or.inr hm
        · rintro (he | hm)
          · exact absurd he.symm h
          · exact hm

theorem pySplit1_of_notMem {sep : Char} {s : PyStr} (h : sep ∉ s) :
    pySplit1 sep s = [s] := by
  induction s with
  | nil => simp [pySplit1]
  | cons c rest ih =>
    simp only [List.mem_cons, not_or] at h
    simp only [pySplit1, if_neg (fun hc : c = sep => h.1 hc.symm)]
    rw [ih h.2]

theorem dropLast_of_length_le_one {α : Type} {l : List α} (h : l.length ≤ 1) :
    l.dropLast = [] := by
  match l with
  | [] => rfl
  | [a] => rfl
  | a :: b :: t => simp at h

/-! ### Lemmas about `collectSome` -/

theorem collectSome_forall {α β : Type} {f : α → Option β} {P : β → Prop}
    {l : List α} {ys : List β}
    (hf : ∀ a ∈ l, ∀ b, f a = some b → P b)
    (h : collectSome f l = some ys) : ∀ y ∈ ys, P y := by
  induction l generalizing ys with
  | nil =>
    simp only [collectSome, Option.some.injEq] at h
    subst h; simp
  | cons a l ih =>
    simp only [collectSome] at h
    rcases hfa : f a with _ | b <;> rw [hfa] at h
    · exact absurd h (by simp)
    · rcases hcr : collectSome f l with _ | bs <;> rw [hcr] at h
      · exact absurd h (by simp)
      · simp only [Option.some.injEq] at h
        subst h
        intro y hy
        rcases List.mem_cons.mp hy with hy | hy
        · exact hy ▸ hf a (by simp) b hfa
        · exact ih (fun x hx => hf x (by simp [hx])) hcr y hy

theorem collectSome_of_forall {α β : Type} {f : α → Option β} {g : α → β}
    {l : List α} (hf : ∀ a ∈ l, f a = some (g a)) :
    collectSome f l = some (l.map g) := by
  induction l with
  | nil => rfl
  | cons a l ih =>
    simp only [collectSome, hf a (by simp), ih (fun x hx => hf x (by simp [hx])),
      List.map_cons]

theorem collectSome_length {α β : Type} {f : α → Option β}
    {l : List α} {ys : List β} (h : collectSome f l = some ys) :
    ys.length = l.length := by
  induction l generalizing ys with
  | nil =>
    simp only [collectSome, Option.some.injEq] at h
    subst h; rfl
  | cons a l ih =>
    simp only [collectSome] at h
    rcases hfa : f a with _ | b <;> rw [hfa] at h
    · exact absurd h (by simp)
    · rcases hcr : collectSome f l with _ | bs <;> rw [hcr] at h
      · exact absurd h (by simp)
      · simp only [Option.some.injEq] at h
        subst h
        simp [ih hcr]

theorem collectSome_get {α β : Type} {f : α → Option β}
    {l : List α} {ys : List β} (h : collectSome f l = some ys) :
    ∀ i (hi : i < l.length) (hi2 : i < ys.length),
      f (l.get ⟨i, hi⟩) = some (ys.get ⟨i, hi2⟩) := by
  induction l generalizing ys with
  | nil => intro i hi; simp at hi
  | cons a l ih =>
    simp only [collectSome] at h
    rcases hfa : f a with _ | b <;> rw [hfa] at h
    · exact absurd h (by simp)
    · rcases hcr : collectSome f l with _ | bs <;> rw [hcr] at h
      · exact absurd h (by simp)
      · simp only [Option.some.injEq] at h
        subst h
        intro i hi hi2
        match i with
        | 0 => simpa using hfa
        | n + 1 =>
          exact ih hcr n (by simpa using hi) (by simpa using hi2)

theorem collectSome_isSome_iff {α β : Type} {f : α → Option β} {l : List α} :
    (collectSome f l).isSome = true ↔ ∀ a ∈ l, (f a).isSome = true := by
  induction l with
  | nil => simp [collectSome]
  | cons a l ih =>
    simp only [collectSome]
    rcases hfa : f a with _ | b
    · simp [hfa]
    · rcases hcr : collectSome f l with _ | bs
      · rw [hcr] at ih
        simp only [Option.isSome_none, Bool.false_eq_true, false_iff, not_forall] at ih
        simp only [Option.isSome_some, Option.isSome_none, Bool.false_eq_true]
        constructor
        · intro hfalse; exact absurd hfalse (by simp)
        · intro hall
          rcases ih with ⟨x, hx, hfx⟩
          exact absurd (hall x (by simp [hx])) (by simp [hfx])
      · rw [hcr] at ih
        simp only [Option.isSome_some, true_iff] at ih
        simp only [Option.isSome_some, true_iff]
        intro x hx
        rcases List.mem_cons.mp hx with hx | hx
        · simp [hx, hfa]
        · exact ih x hx

/-! ### Reduction lemmas for `split` and its pieces -/

theorem tagResult_pySplit (s t : PyStr) (join : Bool) :
    tagResult s (pySplit ',' t) join =
      some [if join then MToken.joined (s ++ '/' :: (pySplit ',' t).headD [])
            else MToken.pair s ((pySplit ',' t).headD [])] := by
  rcases hf : pySplit ',' t with _ | ⟨f0, rest⟩
  · exact absurd hf (pySplit_ne_nil ',' t)
  · simp [tagResult]

theorem split_eq_splitBody {elem s t : PyStr} (he : elem ≠ [])
    (hst : pySplit1 '\t' elem = [s, t]) (join si : Bool) :
    split elem join si = splitBody s t join si := by
  simp only [split, if_neg he, hst]

theorem split_of_no_tab {elem : PyStr} (he : elem ≠ []) (ht : '\t' ∉ elem)
    (join si : Bool) :
    split elem join si = some [MToken.pair [] "SY".toList] := by
  simp only [split, if_neg he, pySplit1_of_notMem ht]

theorem splitBody_false (s t : PyStr) (join : Bool) :
    splitBody s t join false = tagResult s (pySplit ',' t) join := rfl

theorem splitBody_true_not_inflect {t : PyStr} {f4 : PyStr}
    (h4 : (pySplit ',' t)[4]? = some f4) (hne : f4 ≠ "Inflect".toList)
    (s : PyStr) (join : Bool) :
    splitBody s t join true = tagResult s (pySplit ',' t) join := by
  simp only [splitBody, h4]
  simp only [if_neg hne]
  rw [if_pos trivial]

theorem splitBody_true_inflect {t original : PyStr}
    (h4 : (pySplit ',' t)[4]? = some "Inflect".toList)
    (h7 : (pySplit ',' t)[7]? = some original) (s : PyStr) (join : Bool) :
    splitBody s t join true = inflectExpand original join := by
  simp [splitBody, h4, h7]

theorem splitBody_true_none4 {t : PyStr} (h4 : (pySplit ',' t)[4]? = none)
    (s : PyStr) (join : Bool) : splitBody s t join true = none := by
  simp [splitBody, h4]

theorem splitBody_true_none7 {t : PyStr}
    (h4 : (pySplit ',' t)[4]? = some "Inflect".toList)
    (h7 : (pySplit ',' t)[7]? = none)
    (s : PyStr) (join : Bool) : splitBody s t join true = none := by
  simp [splitBody, h4, h7]

theorem split_nil (join si : Bool) :
    split [] join si = some [MToken.pair [] "SY".toList] := rfl

theorem inflectExpand_false_of_slash {original : PyStr}
    (h : ∀ tok ∈ pySplit '+' original, 2 ≤ (pySplit '/' tok).length) :
    inflectExpand original false =
      some ((pySplit '+' original).map
        (fun tok => MToken.pair ((pySplit '/' tok).getD 0 [])
          ((pySplit '/' tok).getD 1 []))) := by
  unfold inflectExpand
  rw [collectSome_of_forall
    (g := fun token => MToken.pair (token.getD 0 []) (token.getD 1 []))]
  · rw [List.map_map]; rfl
  · intro token htok
    rcases List.mem_map.mp htok with ⟨tok, htokmem, rfl⟩
    have h2 := h tok htokmem
    rcases hsh : pySplit '/' tok with _ | ⟨a, _ | ⟨b, r⟩⟩ <;> rw [hsh] at h2
    · simp at h2
    · simp at h2
    · simp

/-! ### With `join=False` every emitted token is a pair -/

theorem tagResult_mem_isPair {s : PyStr} {features : List PyStr} {l : List MToken}
    (h : tagResult s features false = some l) : ∀ x ∈ l, x.isPair = true := by
  unfold tagResult at h
  rcases hf : features[0]? with _ | tag <;> rw [hf] at h
  · exact absurd h (by simp)
  · simp only [Bool.false_eq_true, if_false, Option.some.injEq] at h
    subst h
    intro x hx
    simp only [List.mem_singleton] at hx
    subst hx
    rfl

theorem inflectExpand_mem_isPair {original : PyStr} {l : List MToken}
    (h : inflectExpand original false = some l) : ∀ x ∈ l, x.isPair = true := by
  refine collectSome_forall ?_ h
  intro token _ b hb
  rcases h0 : token[0]? with _ | t0 <;> rw [h0] at hb
  · exact absurd hb (by simp)
  · rcases h1 : token[1]? with _ | t1 <;> rw [h1] at hb
    · exact absurd hb (by simp)
    · simp only [Bool.false_eq_true, if_false, Option.some.injEq] at hb
      subst hb
      rfl

theorem split_mem_isPair {elem : PyStr} {si : Bool} {l : List MToken}
    (h : split elem false si = some l) : ∀ x ∈ l, x.isPair = true := by
  by_cases he : elem = []
  · subst he
    rw [split_nil] at h
    simp only [Option.some.injEq] at h
    subst h
    intro x hx
    simp only [List.mem_singleton] at hx
    subst hx
    rfl
  · rcases hst : pySplit1 '\t' elem with _ | ⟨a, _ | ⟨b, _ | ⟨c, r⟩⟩⟩ <;>
      simp only [split, if_neg he, hst] at h
    · exact fun x hx => by
        simp only [Option.some.injEq] at h
        subst h
        simp only [List.mem_singleton] at hx
        subst hx
        rfl
    · exact fun x hx => by
        simp only [Option.some.injEq] at h
        subst h
        simp only [List.mem_singleton] at hx
        subst hx
        rfl
    · cases si with
      | false => exact tagResult_mem_isPair h
      | true =>
        rcases h4 : (pySplit ',' b)[4]? with _ | f4
        · rw [splitBody_true_none4 h4] at h
          exact absurd h (by simp)
        · by_cases hf4 : f4 = "Inflect".toList
          · subst hf4
            rcases h7 : (pySplit ',' b)[7]? with _ | original
            · rw [splitBody_true_none7 h4 h7] at h
              exact absurd h (by simp)
            · rw [splitBody_true_inflect h4 h7] at h
              exact inflectExpand_mem_isPair h
          · rw [splitBody_true_not_inflect h4 hf4] at h
            exact tagResult_mem_isPair h
    · exact fun x hx => by
        simp only [Option.some.injEq] at h
        subst h
        simp only [List.mem_singleton] at hx
        subst hx
        rfl

theorem parse_false_mem_isPair {result : PyStr} {si : Bool} {toks : List MToken}
    (h : parse result false si = some toks) : ∀ x ∈ toks, x.isPair = true := by
  cases si with
  | false =>
    replace h : collectSome
        (fun elem => Option.bind (split elem false false) List.head?)
        ((pySplitlines result).dropLast) = some toks := h
    refine collectSome_forall ?_ h
    intro elem _ y hy
    rcases hs : split elem false false with _ | l <;> rw [hs] at hy
    · exact absurd hy (by simp)
    · replace hy : l.head? = some y := hy
      rcases l with _ | ⟨a, r⟩
      · exact absurd hy (by simp)
      · simp only [List.head?_cons, Option.some.injEq] at hy
        subst hy
        exact split_mem_isPair hs a (by simp)
  | true =>
    replace h : Option.map List.flatten
        (collectSome (fun elem => split elem false true)
          ((pySplitlines result).dropLast)) = some toks := h
    rcases hc : collectSome (fun elem => split elem false true)
        ((pySplitlines result).dropLast) with _ | ls <;> rw [hc] at h
    · exact absurd h (by simp)
    · replace h : some ls.flatten = some toks := h
      simp only [Option.some.injEq] at h
      subst h
      intro x hx
      rcases List.mem_flatten.mp hx with ⟨l, hl, hxl⟩
      exact collectSome_forall (fun elem _ y hy => split_mem_isPair hy) hc l hl x hxl

theorem split_malformed {elem : PyStr} (h : elem = [] ∨ '\t' ∉ elem)
    (join si : Bool) :
    split elem join si = some [MToken.pair [] "SY".toList] := by
  rcases h with h | h
  · subst h
    exact split_nil join si
  · by_cases he : elem = []
    · subst he
      exact split_nil join si
    · exact split_of_no_tab he h join si

theorem collectSome_asPair_of_pairs {toks : List MToken}
    (h : ∀ x ∈ toks, x.isPair = true) :
    collectSome MToken.asPair toks =
      some (toks.map (fun x => (x.surface, x.tag))) := by
  refine collectSome_of_forall ?_
  intro x hx
  cases x with
  | pair s t => rfl
  | joined s => exact absurd (h _ hx) (by simp [MToken.isPair])

theorem map_pair_surface_tag {toks : List MToken}
    (h : ∀ x ∈ toks, x.isPair = true) :
    toks.map (fun x => MToken.pair x.surface x.tag) = toks := by
  induction toks with
  | nil => rfl
  | cons x toks ih =>
    rcases x with ⟨s, t⟩ | s
    · simp only [List.map_cons]
      rw [ih (fun y hy => h y (by simp [hy]))]
      rfl
    · exact absurd (h (MToken.joined s) (by simp)) (by simp [MToken.isPair])

theorem pos_flat_parse {m : Mecab} {phrase : PhraseInput} {toks : List MToken}
    {join si : Bool}
    (h : m.pos phrase true join si = .ok (.flat toks)) :
    ∃ p, phrase = .text p ∧ parse (m.tagger p) join si = some toks := by
  cases phrase with
  | nonText =>
    replace h : (Except.error PosError.validationError : Except PosError PosResult) =
      .ok (.flat toks) := h
    exact Except.noConfusion h
  | text p =>
    refine ⟨p, rfl, ?_⟩
    replace h : (match parse (m.tagger p) join si with
      | none => (.error .indexError : Except PosError PosResult)
      | some toks => .ok (.flat toks)) = .ok (.flat toks) := h
    rcases hp : parse (m.tagger p) join si with _ | l <;> rw [hp] at h
    · exact Except.noConfusion h
    · simp only [Except.ok.injEq, PosResult.flat.injEq] at h
      rw [h]

theorem morphs_of_pos {m : Mecab} {phrase : PhraseInput} {toks : List MToken}
    (h : m.pos phrase true false false = .ok (.flat toks))
    (hp : ∀ x ∈ toks, x.isPair = true) :
    m.morphs phrase = .ok (toks.map MToken.surface) := by
  simp only [Mecab.morphs, h, collectSome_asPair_of_pairs hp]
  rw [List.map_map]
  rfl

theorem nouns_of_pos {m : Mecab} {phrase : PhraseInput} {toks : List MToken}
    (h : m.pos phrase true false false = .ok (.flat toks))
    (hp : ∀ x ∈ toks, x.isPair = true) :
    m.nouns phrase = .ok (((toks.map (fun x => (x.surface, x.tag))).filter
      (fun p => List.isPrefixOf "N".toList p.2)).map Prod.fst) := by
  simp only [Mecab.nouns, h, collectSome_asPair_of_pairs hp]

theorem inflectElem_isSome (join : Bool) (token : List PyStr) :
    ((match token[0]?, token[1]? with
      | some t0, some t1 =>
        some (if join then MToken.joined (t0 ++ '/' :: t1) else MToken.pair t0 t1)
      | _, _ => none) : Option MToken).isSome = true ↔ 2 ≤ token.length := by
  rcases token with _ | ⟨a, _ | ⟨b, r⟩⟩ <;> simp

/-! ### The claims -/

/-- Claim C1: with split_inflect=true, a tagger output line whose feature
field 4 equals Inflect is expanded by splitting its original feature (field
7) first on the plus marker and then each token on the slash, emitting one
(sub-surface, sub-tag) pair per plus-token in that order; a line whose
feature field 4 is some other value emits exactly the single-element sequence
holding its own (surface, tag) pair. -/
theorem claim_C1 (elem s t : PyStr) (he : elem ≠ [])
    (hst : pySplit1 '\t' elem = [s, t]) :
    (∀ original, (pySplit ',' t)[4]? = some "Inflect".toList →
      (pySplit ',' t)[7]? = some original →
      (∀ tok ∈ pySplit '+' original, 2 ≤ (pySplit '/' tok).length) →
      split elem false true =
        some ((pySplit '+' original).map
          (fun tok => MToken.pair ((pySplit '/' tok).getD 0 [])
            ((pySplit '/' tok).getD 1 [])))) ∧
    (∀ f4, (pySplit ',' t)[4]? = some f4 → f4 ≠ "Inflect".toList →
      split elem false true = some [MToken.pair s ((pySplit ',' t).headD [])]) := by
  constructor
  · intro original h4 h7 hslash
    rw [split_eq_splitBody he hst, splitBody_true_inflect h4 h7,
      inflectExpand_false_of_slash hslash]
  · intro f4 h4 hf4
    rw [split_eq_splitBody he hst, splitBody_true_not_inflect h4 hf4,
      tagResult_pySplit]
    rfl

/-- Witness for claim C1: a concrete inflected line expands into its three
stem/ending pairs, and a concrete non-inflected line passes through as its
own single pair. -/
theorem claim_C1_witness :
    split "하였다\tVV+EP+EF,*,F,하였다,Inflect,VV,EF,하/VV/*+았/EP/*+다/EF/*".toList
        false true =
      some ((pySplit '+' "하/VV/*+았/EP/*+다/EF/*".toList).map
        (fun tok => MToken.pair ((pySplit '/' tok).getD 0 [])
          ((pySplit '/' tok).getD 1 []))) ∧
    split "맛집\tNNG,*,T,맛집,*,*,*,*".toList false true =
      some [MToken.pair "맛집".toList
        ((pySplit ',' "NNG,*,T,맛집,*,*,*,*".toList).headD [])] := by
  constructor
  · exact (claim_C1 "하였다\tVV+EP+EF,*,F,하였다,Inflect,VV,EF,하/VV/*+았/EP/*+다/EF/*".toList
      "하였다".toList "VV+EP+EF,*,F,하였다,Inflect,VV,EF,하/VV/*+았/EP/*+다/EF/*".toList
      (by decide) (by decide)).1
      "하/VV/*+았/EP/*+다/EF/*".toList (by decide) (by decide) (by decide)
  · exact (claim_C1 "맛집\tNNG,*,T,맛집,*,*,*,*".toList "맛집".toList
      "NNG,*,T,맛집,*,*,*,*".toList (by decide) (by decide)).2
      "*".toList (by decide) (by decide)

/-- Claim C2 counterexample: on a jamo-decomposed Inflect line (exactly the
shape the mecab-ko dictionary emits for the surface 인가), the concatenation
of the sub-surfaces produced with split_inflect=true differs from the surface
emitted with split_inflect=false. -/
theorem claim_C2_counterexample :
    split "인가\tVCP+EF,*,T,인가,Inflect,VCP,EF,이/VCP/*+ㄴ가/EF/*".toList false true =
      some [MToken.pair "이".toList "VCP".toList,
        MToken.pair "ㄴ가".toList "EF".toList] ∧
    split "인가\tVCP+EF,*,T,인가,Inflect,VCP,EF,이/VCP/*+ㄴ가/EF/*".toList false false =
      some [MToken.pair "인가".toList "VCP+EF".toList] ∧
    List.flatten ([MToken.pair "이".toList "VCP".toList,
        MToken.pair "ㄴ가".toList "EF".toList].map MToken.surface) ≠
      List.flatten ([MToken.pair "인가".toList "VCP+EF".toList].map MToken.surface) := by
  refine ⟨by decide, by decide, by decide⟩

/-- Claim C2 as amended: for an Inflect line, the concatenation of the
sub-surfaces produced with split_inflect=true equals the concatenation of the
first slash-components of the plus-tokens of the original feature (field 7),
which need not equal the surface that split_inflect=false emits (the text
before the tab). -/
theorem claim_C2 (elem s t original : PyStr) (he : elem ≠ [])
    (hst : pySplit1 '\t' elem = [s, t])
    (h4 : (pySplit ',' t)[4]? = some "Inflect".toList)
    (h7 : (pySplit ',' t)[7]? = some original)
    (hslash : ∀ tok ∈ pySplit '+' original, 2 ≤ (pySplit '/' tok).length) :
    split elem false false = some [MToken.pair s ((pySplit ',' t).headD [])] ∧
    ∃ toks, split elem false true = some toks ∧
      List.flatten (toks.map MToken.surface) =
        List.flatten ((pySplit '+' original).map
          (fun tok => (pySplit '/' tok).getD 0 [])) := by
  constructor
  · rw [split_eq_splitBody he hst, splitBody_false, tagResult_pySplit]
    rfl
  · refine ⟨_, by rw [split_eq_splitBody he hst, splitBody_true_inflect h4 h7,
      inflectExpand_false_of_slash hslash], ?_⟩
    rw [List.map_map]
    rfl

/-- Witness for claim C2 (amended) at a concrete Inflect line. -/
theorem claim_C2_witness :
    split "인가\tVCP+EF,*,F,인가,Inflect,VCP,EF,이/VCP/*+ㄴ가/EF/*".toList false false =
      some [MToken.pair "인가".toList
        ((pySplit ',' "VCP+EF,*,F,인가,Inflect,VCP,EF,이/VCP/*+ㄴ가/EF/*".toList).headD [])] ∧
    ∃ toks,
      split "인가\tVCP+EF,*,F,인가,Inflect,VCP,EF,이/VCP/*+ㄴ가/EF/*".toList false true =
        some toks ∧
      List.flatten (toks.map MToken.surface) =
        List.flatten ((pySplit '+' "이/VCP/*+ㄴ가/EF/*".toList).map
          (fun tok => (pySplit '/' tok).getD 0 [])) :=
  claim_C2 "인가\tVCP+EF,*,F,인가,Inflect,VCP,EF,이/VCP/*+ㄴ가/EF/*".toList
    "인가".toList "VCP+EF,*,F,인가,Inflect,VCP,EF,이/VCP/*+ㄴ가/EF/*".toList
    "이/VCP/*+ㄴ가/EF/*".toList (by decide) (by decide) (by decide) (by decide)
    (by decide)

/-- Claim C3: an empty tagger output line, or one with no tab separator, is
rendered as the placeholder ("", "SY") — a single token, with no failure —
for every combination of the join and split_inflect options. -/
theorem claim_C3 (elem : PyStr) (join si : Bool)
    (h : elem = [] ∨ '\t' ∉ elem) :
    split elem join si = some [MToken.pair [] "SY".toList] :=
  split_malformed h join si

/-- Witness for claim C3 at an empty line and at a tab-less line. -/
theorem claim_C3_witness :
    split [] false false = some [MToken.pair [] "SY".toList] ∧
    split "malformed line without tab".toList true true =
      some [MToken.pair [] "SY".toList] :=
  ⟨claim_C3 [] false false (Or.inl rfl),
   claim_C3 "malformed line without tab".toList true true (Or.inr (by decide))⟩

/-- Claim C9: with join=true a well-formed line becomes the joined string
surface/tag, but an empty or tab-less line still becomes the pair ("", "SY"),
so one parse result can mix joined strings and pairs. -/
theorem claim_C9 :
    (∀ elem s t, elem ≠ [] → pySplit1 '\t' elem = [s, t] →
      split elem true false =
        some [MToken.joined (s ++ '/' :: (pySplit ',' t).headD [])]) ∧
    (∀ elem si, elem = [] ∨ '\t' ∉ elem →
      split elem true si = some [MToken.pair [] "SY".toList]) ∧
    parse "하\tVV,*\n\nEOS\n".toList true false =
      some [MToken.joined "하/VV".toList, MToken.pair [] "SY".toList] := by
  refine ⟨?_, ?_, by decide⟩
  · intro elem s t he hst
    rw [split_eq_splitBody he hst, splitBody_false, tagResult_pySplit]
    rfl
  · intro elem si h
    exact split_malformed h true si

/-- Witness for claim C9 at a concrete well-formed line. -/
theorem claim_C9_witness :
    split "하\tVV,*".toList true false = some [MToken.joined "하/VV".toList] :=
  (claim_C9.1 "하\tVV,*".toList "하".toList "VV,*".toList (by decide)
    (by decide)).trans (by decide)

/-- Claim C10: for an Inflect line processed with split_inflect=true, the
expansion (which indexes the second slash-component of every plus-token) is
total exactly when every plus-token of the original feature contains at least
one slash; otherwise the out-of-range index is reached and the call fails. -/
theorem claim_C10 (elem s t original : PyStr) (join : Bool) (he : elem ≠ [])
    (hst : pySplit1 '\t' elem = [s, t])
    (h4 : (pySplit ',' t)[4]? = some "Inflect".toList)
    (h7 : (pySplit ',' t)[7]? = some original) :
    (split elem join true).isSome = true ↔
      ∀ tok ∈ pySplit '+' original, '/' ∈ tok := by
  rw [split_eq_splitBody he hst, splitBody_true_inflect h4 h7]
  unfold inflectExpand
  rw [collectSome_isSome_iff]
  constructor
  · intro hall tok htok
    have h1 := (inflectElem_isSome join (pySplit '/' tok)).mp
      (hall (pySplit '/' tok) (List.mem_map.mpr ⟨tok, htok, rfl⟩))
    exact (two_le_pySplit_length_iff '/' tok).mp h1
  · intro hall token htoken
    rcases List.mem_map.mp htoken with ⟨tok, htok, rfl⟩
    exact (inflectElem_isSome join (pySplit '/' tok)).mpr
      ((two_le_pySplit_length_iff '/' tok).mpr (hall tok htok))

/-- Witness for claim C10: on a concrete Inflect line whose original feature
has a plus-token with no slash, the precondition fails and so does the call. -/
theorem claim_C10_witness :
    ((split "가버려\tVV+EF,*,F,가버려,Inflect,VV,EF,가버려".toList false true).isSome = true ↔
      ∀ tok ∈ pySplit '+' "가버려".toList, '/' ∈ tok) ∧
    split "가버려\tVV+EF,*,F,가버려,Inflect,VV,EF,가버려".toList false true = none :=
  ⟨claim_C10 "가버려\tVV+EF,*,F,가버려,Inflect,VV,EF,가버려".toList "가버려".toList
    "VV+EF,*,F,가버려,Inflect,VV,EF,가버려".toList "가버려".toList false
    (by decide) (by decide) (by decide) (by decide),
   by decide⟩

/-- Claim C4: for every input phrase on which pos succeeds with default
options, morphs equals the sequence of first components (surfaces) of the
pairs returned by pos, in the same order. -/
theorem claim_C4 (m : Mecab) (phrase : PhraseInput) (toks : List MToken)
    (h : m.pos phrase true false false = .ok (.flat toks)) :
    (∀ x ∈ toks, x.isPair = true) ∧
    m.morphs phrase = .ok (toks.map MToken.surface) := by
  obtain ⟨p, rfl, hp⟩ := pos_flat_parse h
  have hpair := parse_false_mem_isPair hp
  exact ⟨hpair, morphs_of_pos h hpair⟩

/-- Witness for claim C4 at a concrete tagger dump of two tokens. -/
theorem claim_C4_witness :
    (∀ x ∈ [MToken.pair "맛집".toList "NNG".toList,
        MToken.pair "좀".toList "MAG".toList], x.isPair = true) ∧
    (Mecab.mk (fun _ =>
        "맛집\tNNG,*,T,맛집,*,*,*,*\n좀\tMAG,*,T,좀,*,*,*,*\nEOS\n".toList)).morphs
        (.text "맛집 좀".toList) =
      .ok ([MToken.pair "맛집".toList "NNG".toList,
        MToken.pair "좀".toList "MAG".toList].map MToken.surface) :=
  claim_C4
    (Mecab.mk (fun _ =>
      "맛집\tNNG,*,T,맛집,*,*,*,*\n좀\tMAG,*,T,좀,*,*,*,*\nEOS\n".toList))
    (.text "맛집 좀".toList)
    [MToken.pair "맛집".toList "NNG".toList, MToken.pair "좀".toList "MAG".toList]
    (by rfl)

/-- Claim C5: for every phrase on which pos succeeds with default options,
nouns is the order-preserving subsequence of morphs consisting of the
surfaces whose tag starts with N. -/
theorem claim_C5 (m : Mecab) (phrase : PhraseInput) (toks : List MToken)
    (h : m.pos phrase true false false = .ok (.flat toks)) :
    ∃ prs : List (PyStr × PyStr),
      toks = prs.map (fun q => MToken.pair q.1 q.2) ∧
      m.morphs phrase = .ok (prs.map Prod.fst) ∧
      m.nouns phrase = .ok ((prs.filter
        (fun q => List.isPrefixOf "N".toList q.2)).map Prod.fst) ∧
      List.Sublist
        ((prs.filter (fun q => List.isPrefixOf "N".toList q.2)).map Prod.fst)
        (prs.map Prod.fst) := by
  obtain ⟨p, rfl, hp⟩ := pos_flat_parse h
  have hpair := parse_false_mem_isPair hp
  refine ⟨toks.map (fun x => (x.surface, x.tag)), ?_, ?_, ?_, ?_⟩
  · rw [List.map_map]
    exact (map_pair_surface_tag hpair).symm
  · rw [morphs_of_pos h hpair, List.map_map]
    rfl
  · exact nouns_of_pos h hpair
  · exact List.Sublist.map Prod.fst (List.filter_sublist _)

/-- Witness for claim C5 at a concrete dump mixing noun and non-noun tags. -/
theorem claim_C5_witness :
    ∃ prs : List (PyStr × PyStr),
      [MToken.pair "우리".toList "NP".toList,
        MToken.pair "에".toList "JKB".toList,
        MToken.pair "나라".toList "NNG".toList] =
        prs.map (fun q => MToken.pair q.1 q.2) ∧
      (Mecab.mk (fun _ =>
        "우리\tNP,*,F,우리,*,*,*,*\n에\tJKB,*,F,에,*,*,*,*\n나라\tNNG,*,F,나라,*,*,*,*\nEOS\n".toList)).morphs
        (.text "우리에 나라".toList) = .ok (prs.map Prod.fst) ∧
      (Mecab.mk (fun _ =>
        "우리\tNP,*,F,우리,*,*,*,*\n에\tJKB,*,F,에,*,*,*,*\n나라\tNNG,*,F,나라,*,*,*,*\nEOS\n".toList)).nouns
        (.text "우리에 나라".toList) =
        .ok ((prs.filter
          (fun q => List.isPrefixOf "N".toList q.2)).map Prod.fst) ∧
      List.Sublist
        ((prs.filter (fun q => List.isPrefixOf "N".toList q.2)).map Prod.fst)
        (prs.map Prod.fst) :=
  claim_C5
    (Mecab.mk (fun _ =>
      "우리\tNP,*,F,우리,*,*,*,*\n에\tJKB,*,F,에,*,*,*,*\n나라\tNNG,*,F,나라,*,*,*,*\nEOS\n".toList))
    (.text "우리에 나라".toList)
    [MToken.pair "우리".toList "NP".toList,
      MToken.pair "에".toList "JKB".toList,
      MToken.pair "나라".toList "NNG".toList]
    (by rfl)

/-- Claim C6: pos with flatten=false returns one element per
whitespace-delimited segment (eojeol) of the phrase, each element being the
token sequence obtained by tagging and formatting that segment alone. -/
theorem claim_C6 (m : Mecab) (p : PyStr) (join si : Bool)
    (gs : List (List MToken))
    (h : collectSome (fun eojeol => parse (m.tagger eojeol) join si)
      (pySplitWS p) = some gs) :
    m.pos (.text p) false join si = .ok (.grouped gs) ∧
    gs.length = (pySplitWS p).length ∧
    ∀ i (hi : i < (pySplitWS p).length) (hi2 : i < gs.length),
      parse (m.tagger ((pySplitWS p).get ⟨i, hi⟩)) join si =
        some (gs.get ⟨i, hi2⟩) := by
  refine ⟨?_, collectSome_length h, collectSome_get h⟩
  show (match collectSome (fun eojeol => parse (m.tagger eojeol) join si)
      (pySplitWS p) with
    | none => (.error .indexError : Except PosError PosResult)
    | some gs => .ok (.grouped gs)) = .ok (.grouped gs)
  rw [h]

/-- Witness for claim C6 with an echo tagger and a two-eojeol phrase. -/
theorem claim_C6_witness :
    (Mecab.mk (fun e => e ++ "\tNNG,*\nEOS\n".toList)).pos
      (.text "ab cd".toList) false false false =
      .ok (.grouped [[MToken.pair "ab".toList "NNG".toList],
        [MToken.pair "cd".toList "NNG".toList]]) ∧
    ([[MToken.pair "ab".toList "NNG".toList],
      [MToken.pair "cd".toList "NNG".toList]] : List (List MToken)).length =
      (pySplitWS "ab cd".toList).length := by
  have h := claim_C6 (Mecab.mk (fun e => e ++ "\tNNG,*\nEOS\n".toList))
    "ab cd".toList false false
    [[MToken.pair "ab".toList "NNG".toList],
      [MToken.pair "cd".toList "NNG".toList]]
    (by rfl)
  exact ⟨h.1, h.2.1⟩

/-- Claim C7: pos on the empty string yields the empty flat token sequence
with no error (given that the external tagger answers the empty phrase with
the single EOS terminator line), while non-text input is rejected with the
validation error before any processing. -/
theorem claim_C7 (m : Mecab) (flatten join si : Bool)
    (h : (pySplitlines (m.tagger [])).length ≤ 1) :
    m.pos (.text []) true join si = .ok (.flat []) ∧
    m.pos .nonText flatten join si = .error .validationError := by
  constructor
  · have hparse : parse (m.tagger []) join si = some [] := by
      cases si with
      | false =>
        show collectSome
          (fun elem => Option.bind (split elem join false) List.head?)
          ((pySplitlines (m.tagger [])).dropLast) = some []
        rw [dropLast_of_length_le_one h]
        rfl
      | true =>
        show Option.map List.flatten
          (collectSome (fun elem => split elem join true)
            ((pySplitlines (m.tagger [])).dropLast)) = some []
        rw [dropLast_of_length_le_one h]
        rfl
    show (match parse (m.tagger []) join si with
      | none => (.error .indexError : Except PosError PosResult)
      | some toks => .ok (.flat toks)) = .ok (.flat [])
    rw [hparse]
  · rfl

/-- Witness for claim C7 with the real MeCab behaviour on empty input (the
dump is the bare EOS line). -/
theorem claim_C7_witness :
    (Mecab.mk (fun _ => "EOS\n".toList)).pos (.text []) true false false =
      .ok (.flat []) ∧
    (Mecab.mk (fun _ => "EOS\n".toList)).pos .nonText true false false =
      .error .validationError :=
  claim_C7 (Mecab.mk (fun _ => "EOS\n".toList)) true false false (by decide)

set_option maxRecDepth 8192 in
/-- Claim C8 counterexample: with the dictionary path omitted and a failing
default dictionary load, the raised message names the string None — not the
default dictionary directory that was actually tried — so the message does
not name the missing path. -/
theorem claim_C8_counterexample :
    mecabInit ⟨"/opt/mecab/dic".toList, fun _ => false⟩ none =
      .dictError (dictErrorMsg "None".toList) ∧
    ¬ List.IsInfix "/opt/mecab/dic".toList (dictErrorMsg "None".toList) := by
  constructor
  · rfl
  · decide

/-- Claim C8 as amended: when an explicitly given non-empty dictionary path
fails to load, construction fails with an error whose message names that
path; when the path was omitted (defaulted) and the default dictionary fails
to load, construction still fails with the same kind of error, but the
message interpolates the placeholder None instead of the default dictionary
directory. -/
theorem claim_C8 (env : TaggerEnv) (p : PyStr) :
    (p ≠ [] → env.taggerLoads (some p) = false →
      mecabInit env (some p) = .dictError (dictErrorMsg p) ∧
      List.IsInfix p (dictErrorMsg p)) ∧
    (env.taggerLoads none = false →
      mecabInit env none = .dictError (dictErrorMsg "None".toList)) := by
  constructor
  · intro hp hload
    constructor
    · simp [mecabInit, hp, hload, pyStrOfOpt]
    · exact ⟨"The MeCab dictionary does not exist at \"".toList,
        "\". Is the dictionary correctly installed?\nYou can also try entering the dictionary path when initializing the Mecab class: \"Mecab('/some/dic/path')\"".toList,
        rfl⟩
  · intro hload
    simp [mecabInit, hload, pyStrOfOpt]

/-- Witness for claim C8 (amended) at concrete environments. -/
theorem claim_C8_witness :
    (mecabInit ⟨"/d".toList, fun _ => false⟩ (some "/bad/path".toList) =
      .dictError (dictErrorMsg "/bad/path".toList) ∧
      List.IsInfix "/bad/path".toList (dictErrorMsg "/bad/path".toList)) ∧
    mecabInit ⟨"/d".toList, fun _ => false⟩ none =
      .dictError (dictErrorMsg "None".toList) :=
  ⟨(claim_C8 ⟨"/d".toList, fun _ => false⟩ "/bad/path".toList).1
      (by decide) rfl,
   (claim_C8 ⟨"/d".toList, fun _ => false⟩ "/bad/path".toList).2 rfl⟩

end Konlpy
